import Mathlib

/-
Verification development for the torrent-web-bot repository.

The definitions below are a shallow embedding of the Python sources:
  * database/mongo_db.py   (the `processed_posts` collection and its operations)
  * scraper/scheduler.py   (check_website_job, the per-post poll-cycle body)
  * scraper/engine.py      (_parse_links link collection/dedup, find_latest_posts)
  * bot/messages.py        (format_and_send_links filtering and message fan-out)

Times are modelled as seconds (Nat), the Mongo collection as an association
list keyed by url, network fetching as an oracle function
`scrape : String -> Option ScrapeResult` (None = fetch failure or layout not
recognized, i.e. scrape_post returned None or an empty result), and Telegram
channel sends as an oracle `sendOk : Int -> Bool` telling whether the send to
a channel raises. Message text formatting carries no control-flow weight and
is abstracted to events.
-/

namespace TorrentBot

/- ===== database/mongo_db.py : the processed_posts collection ===== -/

/-- One document of the `processed_posts` collection (mongo_db.py lines 52-63):
fields `content_hash`, `link_count`, `processed_at`. -/
structure PageRecord where
  content_hash : String
  link_count : Nat
  processed_at : Nat
deriving DecidableEq

/-- The `processed_posts` collection, keyed by `url`. -/
abbrev DBState := List (String × PageRecord)

/-- Lookup of `find_one({"url": url})`. -/
def getRecord : DBState → String → Option PageRecord
  | [], _ => none
  | (u, r) :: rest, url => if u = url then some r else getRecord rest url

/-- Mongo `update_one({"url": url}, {"$set": ...}, upsert=True)`: replace the
matching document in place, or insert when absent. -/
def setRecord : DBState → String → PageRecord → DBState
  | [], url, r => [(url, r)]
  | (u, r0) :: rest, url, r =>
      if u = url then (u, r) :: rest else (u, r0) :: setRecord rest url r

/-- Database.add_processed_post (mongo_db.py lines 43-63): `$set`s
content_hash, link_count and processed_at under upsert. Note in the source the
link_count is SET, not incremented. -/
def add_processed_post (db : DBState) (url content_hash : String)
    (link_count : Nat) (now : Nat) : DBState :=
  setRecord db url ⟨content_hash, link_count, now⟩

/-- Database.is_url_processed (mongo_db.py lines 67-79). -/
def is_url_processed (db : DBState) (url : String) : Bool :=
  (getRecord db url).isSome

/-- Database.get_post_hash (mongo_db.py lines 81-93). -/
def get_post_hash (db : DBState) (url : String) : Option String :=
  (getRecord db url).map PageRecord.content_hash

/-- Database.was_recently_processed (mongo_db.py lines 95-113): a record for
`url` exists with `processed_at >= now - hours` (threshold truncates at 0). -/
def was_recently_processed (db : DBState) (url : String) (hours : Nat)
    (now : Nat) : Bool :=
  match getRecord db url with
  | none => false
  | some r => now - hours * 3600 ≤ r.processed_at

/- ===== scraper/scheduler.py : change classification ===== -/

/-- The three-way status computed in check_website_job lines 71-86. -/
inductive Status where
  | new
  | updated
  | unchanged
deriving DecidableEq

/-- The classification of check_website_job lines 71-86: `not is_processed`
gives new; otherwise the stored hash (get_post_hash) is compared with the
freshly computed hash. -/
def classify (db : DBState) (url newHash : String) : Status :=
  if is_url_processed db url = false then Status.new
  else if get_post_hash db url ≠ some newHash then Status.updated
  else Status.unchanged

/- ===== scraper/scheduler.py : per-post poll-cycle body ===== -/

/-- One download link as produced by _parse_links: `{'title': ..., 'url': ...}`. -/
structure Link where
  title : String
  url : String
deriving DecidableEq

/-- The result of ScraperEngine.scrape_post when fetch and parsing succeed:
the link list and the md5 content hash. Quality tags and metadata are omitted:
they only decorate message text. -/
structure ScrapeResult where
  links : List Link
  content_hash : String
deriving DecidableEq

/-- Observable actions of the per-post loop body: one `dispatch c ok` per
invocation of format_and_send_links on channel `c` (ok = the call did not
raise), and `commit url` for the Database.add_processed_post write. -/
inductive Event where
  | dispatch (channel : Int) (ok : Bool)
  | commit (url : String)
deriving DecidableEq

/-- The body of the per-post loop of check_website_job (scheduler.py lines
47-110) for one url: skip when recently processed (2 hours, line 52); skip
when scrape_post returns None or no links (lines 57-61); classify (lines
71-86) and skip when unchanged; otherwise invoke format_and_send_links for
every channel (failures caught per channel, lines 90-102) and then write the
record (line 105). Returns the emitted events and the new collection state. -/
def processPost (scrape : String → Option ScrapeResult) (channels : List Int)
    (sendOk : Int → Bool) (db : DBState) (now : Nat) (url : String) :
    List Event × DBState :=
  if was_recently_processed db url 2 now then ([], db)
  else
    match scrape url with
    | none => ([], db)
    | some r =>
        if r.links = [] then ([], db)
        else if classify db url r.content_hash = Status.unchanged then ([], db)
        else
          (channels.map (fun c => Event.dispatch c (sendOk c)) ++ [Event.commit url],
           add_processed_post db url r.content_hash r.links.length now)

/-- The per-post loop of check_website_job over the candidate url list
(scheduler.py line 47), threading the collection state and concatenating the
emitted events. -/
def runCycle (scrape : String → Option ScrapeResult) (channels : List Int)
    (sendOk : Int → Bool) (now : Nat) : DBState → List String → List Event × DBState
  | db, [] => ([], db)
  | db, url :: rest =>
      let step := processPost scrape channels sendOk db now url
      let next := runCycle scrape channels sendOk now step.2 rest
      (step.1 ++ next.1, next.2)

/- ===== string helpers, kernel-computable models of Python str methods ===== -/

/-- Whitespace as stripped by Python's str.strip(). -/
def isSpaceChar (c : Char) : Bool :=
  c = ' ' || c = '\t' || c = '\n' || c = '\r'

/-- Python str.strip(). -/
def strTrim (s : String) : String :=
  ⟨((s.data.dropWhile isSpaceChar).reverse.dropWhile isSpaceChar).reverse⟩

/-- Python str.startswith(p). -/
def strStartsWith (s p : String) : Bool :=
  p.data.isPrefixOf s.data

/-- Python str.rstrip('/'). -/
def rstripSlash (s : String) : String :=
  ⟨(s.data.reverse.dropWhile (fun c => c = '/')).reverse⟩

/- ===== scraper/engine.py : _parse_links link collection and dedup ===== -/

/-- One anchor element as seen by _parse_links: its href attribute (absent
when the element has none), its text and its title attribute. -/
structure Anchor where
  href : Option String
  text : String
  title : String
deriving DecidableEq

/-- The accumulation loop of engine.py lines 188-193: for each selector of
torrent_selectors the matched anchors are appended (no break), so the
collected list is the concatenation in rule order then encounter order.
A page is therefore modelled by the per-selector match lists. -/
def collectAnchors (selectorResults : List (List Anchor)) : List Anchor :=
  selectorResults.flatten

/-- The dedup loop of engine.py lines 195-202: an anchor is kept when its
href is truthy (present and nonempty) and not yet in seen_urls; first
occurrence wins. -/
def dedupAnchors : List Anchor → List String → List Anchor
  | [], _ => []
  | a :: rest, seen =>
      match a.href with
      | none => dedupAnchors rest seen
      | some u =>
          if u = "" then dedupAnchors rest seen
          else if u ∈ seen then dedupAnchors rest seen
          else a :: dedupAnchors rest (u :: seen)

/-- The per-anchor body of engine.py lines 204-213: the display name is the
stripped text, falling back to the stripped title attribute; links with a
missing name or url are skipped. -/
def linkOfAnchor (a : Anchor) : Option Link :=
  match a.href with
  | none => none
  | some u =>
      let name := if strTrim a.text ≠ "" then strTrim a.text else strTrim a.title
      if name = "" ∨ u = "" then none else some ⟨name, u⟩

/-- The link list produced by _parse_links (engine.py lines 180-253) from the
per-selector anchor matches: collect, dedup by href, then build links. -/
def parseLinks (selectorResults : List (List Anchor)) : List Link :=
  (dedupAnchors (collectAnchors selectorResults) []).filterMap linkOfAnchor

/- ===== bot/messages.py : format_and_send_links ===== -/

/-- Whether a url uses the direct-transfer scheme
(`link.get('url','').startswith('magnet:')`, messages.py line 29). -/
def isMagnet (u : String) : Bool :=
  strStartsWith u "magnet:"

/-- Observable messages of format_and_send_links: the header message and one
message per delivered link (the body text itself carries no control flow and
is abstracted). -/
inductive Msg where
  | header (postTitle : String)
  | item (lk : Link)
deriving DecidableEq

/-- format_and_send_links (messages.py lines 20-87) as the list of send
attempts it makes: empty when `links` is empty; empty when no non-magnet link
remains after filtering (line 29-32, no header is sent); otherwise the header
followed, when the header send did not raise (headerOk), by one message per
filtered link. -/
def format_and_send_links (postTitle : String) (links : List Link)
    (headerOk : Bool) : List Msg :=
  if links = [] then []
  else
    let torrent_links := links.filter (fun lk => !isMagnet lk.url)
    if torrent_links = [] then []
    else if headerOk then
      Msg.header postTitle :: torrent_links.map Msg.item
    else [Msg.header postTitle]

/- ===== scraper/engine.py : find_latest_posts ===== -/

/-- A datetime as resolved by _extract_post_datetime (engine.py lines
53-115): the instant in seconds (val) and whether the Python datetime object
is timezone-aware (aware). fromtimestamp(..., tz=pytz.UTC) and the
relative-time phrases produce aware datetimes; dateutil.parser.parse of a
plain date string produces a naive one. Comparing a naive datetime with an
aware one raises TypeError in Python. -/
structure PostTime where
  aware : Bool
  val : Int
deriving DecidableEq

/-- One element matched by a post selector on the index page: its href and
the publication timestamp resolved by _extract_post_datetime for its post
container (None when no datetime was found). -/
structure IndexElem where
  href : Option String
  time : Option PostTime
deriving DecidableEq

/-- One entry of found_posts (engine.py lines 330-334 and 355-359). -/
structure FoundPost where
  url : String
  time : Option PostTime
deriving DecidableEq

/-- URL normalization of engine.py lines 311-313 and 352-354: a relative
href is prefixed with the base url stripped of trailing slashes. -/
def normalizeUrl (base href : String) : String :=
  if strStartsWith href "/" then rstripSlash base ++ href else href

/-- ScraperEngine._is_recent_post (engine.py lines 117-134): no datetime is
treated as recent; otherwise the age must be at most hoursThreshold hours.
A naive datetime is localized to UTC and an aware one converted to UTC, so
in both cases the instant (val) is compared. -/
def is_recent_post (now : Int) (hoursThreshold : Int) (t : Option PostTime) : Bool :=
  match t with
  | none => true
  | some pt => now - pt.val ≤ hoursThreshold * 3600

/-- The inner element loop of find_latest_posts (engine.py lines 305-337) for
one selector's matches: elements without a (truthy) href are skipped, urls
are normalized, and only elements passing _is_recent_post enter found_posts. -/
def processElems (base : String) (now thresh : Int) (es : List IndexElem) :
    List FoundPost :=
  es.filterMap fun e =>
    match e.href with
    | none => none
    | some h =>
        if h = "" then none
        else if is_recent_post now thresh e.time then
          some ⟨normalizeUrl base h, e.time⟩
        else none

/-- The selector loop of find_latest_posts (engine.py lines 299-344):
selectors are tried in order and the loop breaks as soon as found_posts is
nonempty, i.e. as soon as a selector contributes at least one element that
has a usable href and survives the recency filter. -/
def selectPosts (base : String) (now thresh : Int) :
    List (List IndexElem) → List FoundPost
  | [] => []
  | es :: rest =>
      let fp := processElems base now thresh es
      if fp = [] then selectPosts base now thresh rest else fp

/-- Descending comparison of the try-branch sort key (engine.py line 363):
posts are keyed by `datetime or datetime.min.replace(tzinfo=pytz.UTC)`, so
an absent timestamp sorts below every present one (datetime.min is the least
datetime). `timeGe a b` holds when a's key instant is at least b's. The
awareness flags play no role here: the try branch only completes when all
keys are of one kind (see mixedKinds). -/
def timeGe (a b : FoundPost) : Bool :=
  match a.time, b.time with
  | _, none => true
  | none, some _ => false
  | some x, some y => y.val ≤ x.val

/-- Kind of the sort key of engine.py line 363: an absent datetime is keyed
by the aware datetime.min, a present one keeps its own awareness. -/
def keyAware (t : Option PostTime) : Bool :=
  match t with
  | none => true
  | some pt => pt.aware

/-- Whether the try-branch sort of engine.py line 363 raises: Python raises
TypeError exactly when a comparison mixes a naive and an aware datetime, and
the sort compares every adjacent pair while building runs, so it raises
exactly when both key kinds occur in the list. -/
def mixedKinds (l : List FoundPost) : Bool :=
  (l.any fun p => keyAware p.time) && (l.any fun p => !keyAware p.time)

/-- Digit predicate for the URL-number regex, on code points. -/
def isDigitChar (c : Char) : Bool :=
  48 ≤ c.toNat && c.toNat ≤ 57

/-- Value of a maximal leading digit run, as matched by `(\d+)`. -/
def readDigits (acc : Nat) : List Char → Nat
  | [] => acc
  | c :: rest =>
      if isDigitChar c then readDigits (acc * 10 + (c.toNat - 48)) rest else acc

/-- First match of the pattern: a slash immediately followed by at least one
digit; returns the digit group's value (re.search scans left to right). -/
def findSlashNum : List Char → Option Nat
  | [] => none
  | c :: rest =>
      if c = '/' then
        match rest with
        | [] => none
        | d :: _ => if isDigitChar d then some (readDigits 0 rest) else findSlashNum rest
      else findSlashNum rest

/-- The fallback sort key of engine.py line 366:
`int(re.search(r'/(\d+)', url).group(1)) if re.search(...) else 0`. -/
def urlNum (u : String) : Nat :=
  (findSlashNum u.data).getD 0

/-- Descending comparison by the fallback URL-number key (engine.py line
366). -/
def urlGe (a b : FoundPost) : Bool :=
  urlNum b.url ≤ urlNum a.url

/-- Stable insertion of one post into a list sorted descending by ge: the
inserted post goes before the first post not strictly above it, so equal
keys keep their original relative order, as Python's stable sort does. -/
def sortInsert (ge : FoundPost → FoundPost → Bool) (p : FoundPost) :
    List FoundPost → List FoundPost
  | [] => [p]
  | q :: rest => if ge p q then p :: q :: rest else q :: sortInsert ge p rest

/-- Stable descending sort by ge, modelling Python's stable
list.sort(key=..., reverse=True). -/
def sortDescBy (ge : FoundPost → FoundPost → Bool) : List FoundPost → List FoundPost
  | [] => []
  | p :: rest => sortInsert ge p (sortDescBy ge rest)

/-- The try/except sort of find_latest_posts (engine.py lines 361-366): the
try branch sorts by resolved timestamp, newest first; it raises exactly when
the keys mix naive and aware datetimes (mixedKinds), in which case the
in-place sort leaves the list in an implementation-defined partially
permuted state — modelled by the scramble oracle — and the except branch
re-sorts that state by the first URL number, descending. -/
def sortPosts (scramble : List FoundPost → List FoundPost) (l : List FoundPost) :
    List FoundPost :=
  if mixedKinds l then sortDescBy urlGe (scramble l) else sortDescBy timeGe l

/-- The fallback branch of find_latest_posts (engine.py lines 347-359): when
every selector contributed nothing, the first max_posts pattern-matched links
enter found_posts with datetime None, after the same url normalization. -/
def fallbackPosts (base : String) (maxPosts : Nat) (fallbackLinks : List String) :
    List FoundPost :=
  (fallbackLinks.take maxPosts).map (fun h => ⟨normalizeUrl base h, none⟩)

/-- The posts considered by find_latest_posts before sorting: the selector
loop result, or the fallback list when it is empty. -/
def foundPosts (base : String) (now thresh : Int) (maxPosts : Nat)
    (selectorResults : List (List IndexElem)) (fallbackLinks : List String) :
    List FoundPost :=
  let fp := selectPosts base now thresh selectorResults
  if fp = [] then fallbackPosts base maxPosts fallbackLinks else fp

/-- ScraperEngine.find_latest_posts (engine.py lines 263-378) result: the
found posts sorted by the try/except sort of lines 361-366 (see sortPosts),
truncated to max_posts, projected to urls (line 369). No dedup is applied. -/
def find_latest_posts (scramble : List FoundPost → List FoundPost)
    (base : String) (now thresh : Int) (maxPosts : Nat)
    (selectorResults : List (List IndexElem)) (fallbackLinks : List String) :
    List String :=
  ((sortPosts scramble
      (foundPosts base now thresh maxPosts selectorResults fallbackLinks)).take
    maxPosts).map FoundPost.url

/- ===== predicates for the idempotence analysis of the poll cycle ===== -/

/-- Precondition for the amended idempotence property: when the first run
(at time now) would skip address u as recently processed, the record already
stored for u carries the fingerprint of the source's current content for u
(or that content yields no links anyway). Decidable by evaluation. -/
def staleFreeB (scrape : String → Option ScrapeResult) (db : DBState)
    (now : Nat) (u : String) : Bool :=
  !(was_recently_processed db u 2 now) ||
    (match scrape u with
     | none => true
     | some r => r.links.isEmpty || (get_post_hash db u == some r.content_hash))

/-- Address u is settled in store db w.r.t. the current source content: its
content either cannot be processed (fetch failure, or no links) or the stored
record already carries the current content fingerprint. A settled address is
skipped by any run of the per-post body, at any time. -/
def HashSettled (scrape : String → Option ScrapeResult) (db : DBState)
    (u : String) : Prop :=
  ∀ r : ScrapeResult, scrape u = some r →
    r.links = [] ∨
      ∃ rec : PageRecord, getRecord db u = some rec ∧
        rec.content_hash = r.content_hash

/-- Invariant threaded through a run starting from store db0: each address's
record is either still exactly its initial one, or has been overwritten with
a record carrying the current content fingerprint of that address. -/
def RecordTracked (scrape : String → Option ScrapeResult) (db0 db : DBState)
    (u : String) : Prop :=
  getRecord db u = getRecord db0 u ∨
    ∃ (r : ScrapeResult) (rec : PageRecord), scrape u = some r ∧
      getRecord db u = some rec ∧ rec.content_hash = r.content_hash

/- ===== helper lemmas on the store ===== -/

theorem getRecord_setRecord_self (db : DBState) (url : String) (r : PageRecord) :
    getRecord (setRecord db url r) url = some r := by
  induction db with
  | nil => simp [setRecord, getRecord]
  | cons p rest ih =>
      obtain ⟨u, r0⟩ := p
      by_cases h : u = url <;> simp [setRecord, getRecord, h, ih]

theorem getRecord_setRecord_other (db : DBState) (url v : String) (r : PageRecord)
    (h : v ≠ url) : getRecord (setRecord db url r) v = getRecord db v := by
  have hvu : ∀ u : String, u = url → ¬u = v := by
    intro u hu hv
    exact h (hv.symm.trans hu)
  induction db with
  | nil =>
      simp only [setRecord, getRecord]
      rw [if_neg (hvu url rfl)]
  | cons p rest ih =>
      obtain ⟨u, r0⟩ := p
      by_cases hu : u = url
      · simp only [setRecord, if_pos hu, getRecord]
        rw [if_neg (hvu u hu), if_neg (hvu u hu)]
      · simp [setRecord, getRecord, hu, ih]

/- ===== C1 ===== -/

/-- C1: change classification is a total three-way function of the stored
record: no record gives new, a record with a different stored fingerprint
gives updated, a record with an equal fingerprint gives unchanged, and for
every address (also one never seen) exactly one of the three is produced. -/
theorem classify_total_three_way (db : DBState) (url h : String) :
    (classify db url h = Status.new ∨ classify db url h = Status.updated ∨
      classify db url h = Status.unchanged) ∧
    (getRecord db url = none → classify db url h = Status.new) ∧
    (∀ rec : PageRecord, getRecord db url = some rec → rec.content_hash ≠ h →
      classify db url h = Status.updated) ∧
    (∀ rec : PageRecord, getRecord db url = some rec → rec.content_hash = h →
      classify db url h = Status.unchanged) := by
  unfold classify is_url_processed get_post_hash
  cases hrec : getRecord db url with
  | none => simp
  | some rec =>
      by_cases hh : rec.content_hash = h
      · simp [hh]
      · simp [hh]

/-- Witness for C1 at a concrete store: an address whose stored fingerprint
differs from the fresh one classifies as updated. -/
theorem classify_total_three_way_witness :
    classify [("u", ⟨"h1", 4, 0⟩)] "u" "h2" = Status.updated :=
  (classify_total_three_way [("u", ⟨"h1", 4, 0⟩)] "u" "h2").2.2.1
    ⟨"h1", 4, 0⟩ (by decide) (by decide)

/- ===== C3 ===== -/

/-- C3 counterexample: starting from a stored record with item count 5,
add_processed_post with count 3 leaves the stored count at 3, not at the
cumulative 5 + 3 the claim asserts. -/
theorem put_not_cumulative_cx :
    (getRecord (add_processed_post [("u", ⟨"H0", 5, 0⟩)] "u" "H1" 3 10) "u").map
        PageRecord.link_count = some 3 ∧
    (getRecord (add_processed_post [("u", ⟨"H0", 5, 0⟩)] "u" "H1" 3 10) "u").map
        PageRecord.link_count ≠ some (5 + 3) := by
  decide

/-- C3 amended: the put operation is an upsert that sets the stored
fingerprint, item count and timestamp to the values of the latest update
(overwriting, not accumulating, the count), and leaves every other address's
record untouched. -/
theorem add_processed_post_sets_record (db : DBState) (url h : String)
    (c now : Nat) :
    getRecord (add_processed_post db url h c now) url = some ⟨h, c, now⟩ ∧
    (∀ v, v ≠ url → getRecord (add_processed_post db url h c now) v = getRecord db v) := by
  refine ⟨getRecord_setRecord_self db url _, fun v hv => ?_⟩
  exact getRecord_setRecord_other db url v _ hv

/-- Witness for C3's amended statement at a concrete store. -/
theorem add_processed_post_sets_record_witness :
    getRecord (add_processed_post [("u", ⟨"H0", 5, 0⟩)] "u" "H1" 3 10) "u" =
      some ⟨"H1", 3, 10⟩ ∧
    getRecord (add_processed_post [("u", ⟨"H0", 5, 0⟩)] "u" "H1" 3 10) "v" =
      getRecord [("u", ⟨"H0", 5, 0⟩)] "v" :=
  ⟨(add_processed_post_sets_record [("u", ⟨"H0", 5, 0⟩)] "u" "H1" 3 10).1,
   (add_processed_post_sets_record [("u", ⟨"H0", 5, 0⟩)] "u" "H1" 3 10).2 "v" (by decide)⟩

/- ===== C10 ===== -/

/-- C10: a candidate whose record was written within the last 2 hours is
skipped before the fetch step: the per-post body emits no event (no dispatch,
no commit) and leaves the store untouched, and its outcome does not depend on
the page's current content (the scrape oracle), so even changed content is
ignored in that cycle. -/
theorem recently_processed_skip (scrape scrapeAlt : String → Option ScrapeResult)
    (channels : List Int) (sendOk : Int → Bool) (db : DBState) (now : Nat)
    (url : String) (hrec : was_recently_processed db url 2 now = true) :
    processPost scrape channels sendOk db now url = ([], db) ∧
    processPost scrape channels sendOk db now url =
      processPost scrapeAlt channels sendOk db now url := by
  unfold processPost
  simp [hrec]

/-- Witness for C10: a record written at time 100 is still recent at time
100, so the post is skipped although the scrape oracle would report changed
content. -/
theorem recently_processed_skip_witness :
    processPost (fun _ => some ⟨[⟨"t", "x"⟩], "H9"⟩) [1] (fun _ => true)
        [("u", ⟨"H0", 1, 100⟩)] 100 "u" = ([], [("u", ⟨"H0", 1, 100⟩)]) :=
  (recently_processed_skip (fun _ => some ⟨[⟨"t", "x"⟩], "H9"⟩) (fun _ => none)
    [1] (fun _ => true) [("u", ⟨"H0", 1, 100⟩)] 100 "u" (by decide)).1

/- ===== C7 ===== -/

/-- C7: the delivery fan-out sends per-item messages only for links whose url
does not use the magnet scheme, and when no link survives that filter the
call sends nothing at all, not even the header. -/
theorem format_and_send_links_filters_magnet (postTitle : String)
    (links : List Link) (headerOk : Bool) :
    (links.filter (fun lk => !isMagnet lk.url) = [] →
      format_and_send_links postTitle links headerOk = []) ∧
    (∀ lk : Link, Msg.item lk ∈ format_and_send_links postTitle links headerOk →
      isMagnet lk.url = false ∧ lk ∈ links) := by
  constructor
  · intro hf
    unfold format_and_send_links
    by_cases hl : links = [] <;> simp [hl, hf]
  · intro lk hmem
    unfold format_and_send_links at hmem
    by_cases hl : links = []
    · simp [hl] at hmem
    · simp only [if_neg hl] at hmem
      by_cases hf : links.filter (fun lk => !isMagnet lk.url) = []
      · simp [hf] at hmem
      · simp only [if_neg hf] at hmem
        cases hok : headerOk
        · simp [hok] at hmem
        · simp only [hok, if_pos] at hmem
          rcases List.mem_cons.mp hmem with hh | hh
          · cases hh
          · obtain ⟨lk2, hlk2, heq⟩ := List.mem_map.mp hh
            cases heq
            have := List.mem_filter.mp hlk2
            refine ⟨?_, this.1⟩
            have h2 := this.2
            simpa using h2

/-- Witness for C7: a fan-out whose only link is a magnet address sends no
message at all, and a mixed list yields item messages only for the
non-magnet link. -/
theorem format_and_send_links_filters_magnet_witness :
    format_and_send_links "T" [⟨"a", "magnet:?xt=1"⟩] true = [] ∧
    (isMagnet "http-link" = false ∧
      (⟨"b", "http-link"⟩ : Link) ∈ [(⟨"a", "magnet:?xt=1"⟩ : Link), ⟨"b", "http-link"⟩]) :=
  ⟨(format_and_send_links_filters_magnet "T" [⟨"a", "magnet:?xt=1"⟩] true).1 (by decide),
   (format_and_send_links_filters_magnet "T"
      [⟨"a", "magnet:?xt=1"⟩, ⟨"b", "http-link"⟩] true).2 ⟨"b", "http-link"⟩ (by decide)⟩

/- ===== C2 ===== -/

/-- C2: whenever the per-post body commits the record for an address, the
event trace is exactly one dispatch per active channel followed by the
commit, so the write happens only after the dispatcher has been invoked for
every destination; moreover the resulting store state and whether a commit
happens are independent of which destination sends fail. -/
theorem commit_after_full_fanout (scrape : String → Option ScrapeResult)
    (channels : List Int) (sendOk sendOkAlt : Int → Bool) (db : DBState)
    (now : Nat) (url : String) :
    (Event.commit url ∈ (processPost scrape channels sendOk db now url).1 →
      (processPost scrape channels sendOk db now url).1 =
        channels.map (fun c => Event.dispatch c (sendOk c)) ++ [Event.commit url]) ∧
    (processPost scrape channels sendOk db now url).2 =
      (processPost scrape channels sendOkAlt db now url).2 ∧
    ((Event.commit url ∈ (processPost scrape channels sendOk db now url).1) ↔
      Event.commit url ∈ (processPost scrape channels sendOkAlt db now url).1) := by
  unfold processPost
  cases hrec : was_recently_processed db url 2 now
  · cases hs : scrape url with
    | none => simp
    | some r =>
        by_cases hl : r.links = []
        · simp [hl]
        · by_cases hc : classify db url r.content_hash = Status.unchanged
          · simp [hl, hc]
          · simp [hl, hc]
  · simp

/-- Witness for C2: with two channels of which the second send fails, the
trace is dispatch 1 (ok), dispatch 2 (failed), then the commit. -/
theorem commit_after_full_fanout_witness :
    (processPost (fun u => if u = "u" then some ⟨[⟨"t", "x"⟩], "H"⟩ else none)
        [1, 2] (fun c => c == 1) [] 50 "u").1 =
      [1, 2].map (fun c => Event.dispatch c (c == 1)) ++ [Event.commit "u"] :=
  (commit_after_full_fanout (fun u => if u = "u" then some ⟨[⟨"t", "x"⟩], "H"⟩ else none)
    [1, 2] (fun c => c == 1) (fun _ => false) [] 50 "u").1 (by decide)

/- ===== helper lemmas on the per-post body ===== -/

theorem processPost_scrape_none (scrape : String → Option ScrapeResult)
    (channels : List Int) (sendOk : Int → Bool) (db : DBState) (now : Nat)
    (url : String) (h : scrape url = none) :
    processPost scrape channels sendOk db now url = ([], db) := by
  unfold processPost
  rw [h]
  cases was_recently_processed db url 2 now <;> simp

theorem processPost_getRecord_other (scrape : String → Option ScrapeResult)
    (channels : List Int) (sendOk : Int → Bool) (db : DBState) (now : Nat)
    (url v : String) (h : v ≠ url) :
    getRecord (processPost scrape channels sendOk db now url).2 v = getRecord db v := by
  unfold processPost add_processed_post
  cases was_recently_processed db url 2 now
  · cases scrape url with
    | none => rfl
    | some r =>
        by_cases hl : r.links = []
        · simp [hl]
        · by_cases hc : classify db url r.content_hash = Status.unchanged
          · simp [hl, hc]
          · simp [hl, hc, getRecord_setRecord_other db url v _ h]
  · rfl

/- ===== C5 ===== -/

theorem runCycle_filter_of_scrape_none (scrape : String → Option ScrapeResult)
    (channels : List Int) (sendOk : Int → Bool) (now : Nat) (u0 : String)
    (hfail : scrape u0 = none) :
    ∀ (urls : List String) (db : DBState),
      runCycle scrape channels sendOk now db urls =
        runCycle scrape channels sendOk now db (urls.filter (fun u => u != u0)) := by
  intro urls
  induction urls with
  | nil => intro db; rfl
  | cons u rest ih =>
      intro db
      by_cases hu : u = u0
      · subst hu
        have hstep := processPost_scrape_none scrape channels sendOk db now u hfail
        simp [runCycle, hstep, List.filter, ih db]
      · simp only [runCycle, List.filter_cons]
        have : (u != u0) = true := by simp [hu]
        rw [this]
        simp only [if_pos rfl, runCycle]
        rw [ih]

theorem runCycle_getRecord_of_scrape_none (scrape : String → Option ScrapeResult)
    (channels : List Int) (sendOk : Int → Bool) (now : Nat) (u0 : String)
    (hfail : scrape u0 = none) :
    ∀ (urls : List String) (db : DBState),
      getRecord (runCycle scrape channels sendOk now db urls).2 u0 = getRecord db u0 := by
  intro urls
  induction urls with
  | nil => intro db; rfl
  | cons u rest ih =>
      intro db
      simp only [runCycle]
      rw [ih]
      by_cases hu : u0 = u
      · rw [processPost_scrape_none scrape channels sendOk db now u (hu ▸ hfail)]
      · exact processPost_getRecord_other scrape channels sendOk db now u u0 hu

/-- C5: an address whose fetch fails contributes nothing to the cycle: the
cycle's events and final store are exactly those of the cycle run on the
remaining addresses, and the failed address's record is left untouched. -/
theorem fetch_failure_isolated (scrape : String → Option ScrapeResult)
    (channels : List Int) (sendOk : Int → Bool) (now : Nat) (db : DBState)
    (urls : List String) (u0 : String) (hfail : scrape u0 = none) :
    runCycle scrape channels sendOk now db urls =
      runCycle scrape channels sendOk now db (urls.filter (fun u => u != u0)) ∧
    getRecord (runCycle scrape channels sendOk now db urls).2 u0 = getRecord db u0 :=
  ⟨runCycle_filter_of_scrape_none scrape channels sendOk now u0 hfail urls db,
   runCycle_getRecord_of_scrape_none scrape channels sendOk now u0 hfail urls db⟩

/-- Witness for C5: with three candidates of which the middle one fails to
fetch, the cycle equals the cycle on the two good candidates and the failed
address keeps no record. -/
theorem fetch_failure_isolated_witness :
    runCycle
        (fun u => if u = "bad" then none else some ⟨[⟨"t", "x"⟩], "H"⟩)
        [1] (fun _ => true) 50 [] ["a", "bad", "c"] =
      runCycle
        (fun u => if u = "bad" then none else some ⟨[⟨"t", "x"⟩], "H"⟩)
        [1] (fun _ => true) 50 []
        (["a", "bad", "c"].filter (fun u => u != "bad")) ∧
    getRecord
        (runCycle
          (fun u => if u = "bad" then none else some ⟨[⟨"t", "x"⟩], "H"⟩)
          [1] (fun _ => true) 50 [] ["a", "bad", "c"]).2 "bad" =
      getRecord [] "bad" :=
  fetch_failure_isolated
    (fun u => if u = "bad" then none else some ⟨[⟨"t", "x"⟩], "H"⟩)
    [1] (fun _ => true) 50 [] ["a", "bad", "c"] "bad" (by decide)

/- ===== C8 ===== -/

/-- C8 counterexample: the first selector matches one candidate element, yet
because that candidate fails the recency filter the next selector is still
tried and its candidate is returned; under the claim the result would have
had to come from the first selector alone (hence be empty). -/
theorem selector_chain_continues_cx :
    selectPosts "B" 1000000 1
        [[⟨some "old", some ⟨true, 0⟩⟩], [⟨some "fresh", some ⟨true, 1000000⟩⟩]] =
      [⟨"fresh", some ⟨true, 1000000⟩⟩] ∧
    ([(⟨some "old", some ⟨true, 0⟩⟩ : IndexElem)] ≠ []) ∧
    processElems "B" 1000000 1 [⟨some "old", some ⟨true, 0⟩⟩] = [] := by
  decide

/-- C8 amended: the ordered selector heuristics are tried in sequence and the
first selector wins whose matches yield at least one surviving candidate
(usable href and passing the recency filter); a selector whose matches all
get filtered out is passed over and later selectors are still tried. -/
theorem selector_first_surviving_wins (base : String) (now thresh : Int)
    (es : List IndexElem) (rest : List (List IndexElem)) :
    (processElems base now thresh es = [] →
      selectPosts base now thresh (es :: rest) = selectPosts base now thresh rest) ∧
    (processElems base now thresh es ≠ [] →
      selectPosts base now thresh (es :: rest) = processElems base now thresh es) := by
  constructor <;> intro h <;> simp [selectPosts, h]

/-- Witness for C8's amended statement on concrete selector results. -/
theorem selector_first_surviving_wins_witness :
    selectPosts "B" 1000000 1
        [[⟨some "old", some ⟨true, 0⟩⟩], [⟨some "fresh", some ⟨true, 1000000⟩⟩]] =
      selectPosts "B" 1000000 1 [[⟨some "fresh", some ⟨true, 1000000⟩⟩]] ∧
    selectPosts "B" 1000000 1 [[⟨some "fresh", some ⟨true, 1000000⟩⟩]] =
      processElems "B" 1000000 1 [⟨some "fresh", some ⟨true, 1000000⟩⟩] :=
  ⟨(selector_first_surviving_wins "B" 1000000 1 [⟨some "old", some ⟨true, 0⟩⟩]
      [[⟨some "fresh", some ⟨true, 1000000⟩⟩]]).1 (by decide),
   (selector_first_surviving_wins "B" 1000000 1 [⟨some "fresh", some ⟨true, 1000000⟩⟩] []).2
      (by decide)⟩

/- ===== C9 ===== -/

/-- C9 counterexample: an index page whose winning selector matches two
anchors with the same href yields that address twice; no dedup is applied.
(All timestamps absent, so the try-branch sort completes and keeps order.) -/
theorem find_latest_duplicate_cx :
    find_latest_posts (fun l => l) "B" 1000 48 10
        [[⟨some "a", none⟩, ⟨some "a", none⟩]] [] = ["a", "a"] ∧
    ¬ (find_latest_posts (fun l => l) "B" 1000 48 10
        [[⟨some "a", none⟩, ⟨some "a", none⟩]] []).Nodup := by
  decide

theorem timeGe_total (a b : FoundPost) : timeGe a b = true ∨ timeGe b a = true := by
  unfold timeGe
  rcases a with ⟨ua, ta⟩
  rcases b with ⟨ub, tb⟩
  cases ta with
  | none => cases tb with
    | none => simp
    | some y => simp
  | some x => cases tb with
    | none => simp
    | some y =>
        simp only [decide_eq_true_eq]
        omega

theorem timeGe_trans (a b c : FoundPost) (h1 : timeGe a b = true)
    (h2 : timeGe b c = true) : timeGe a c = true := by
  unfold timeGe at h1 h2 ⊢
  rcases a with ⟨ua, ta⟩
  rcases b with ⟨ub, tb⟩
  rcases c with ⟨uc, tc⟩
  cases ta <;> cases tb <;> cases tc <;> simp_all
  omega

theorem urlGe_total (a b : FoundPost) : urlGe a b = true ∨ urlGe b a = true := by
  unfold urlGe
  simp only [decide_eq_true_eq]
  omega

theorem urlGe_trans (a b c : FoundPost) (h1 : urlGe a b = true)
    (h2 : urlGe b c = true) : urlGe a c = true := by
  unfold urlGe at h1 h2 ⊢
  simp only [decide_eq_true_eq] at h1 h2 ⊢
  omega

theorem mem_sortInsert (ge : FoundPost → FoundPost → Bool) (p x : FoundPost)
    (l : List FoundPost) : x ∈ sortInsert ge p l ↔ x = p ∨ x ∈ l := by
  induction l with
  | nil => simp [sortInsert]
  | cons q rest ih =>
      unfold sortInsert
      by_cases h : ge p q = true
      · simp [h]
      · simp only [Bool.not_eq_true] at h
        simp [h, ih]
        tauto

theorem sortInsert_pairwise (ge : FoundPost → FoundPost → Bool)
    (htot : ∀ a b, ge a b = true ∨ ge b a = true)
    (htrans : ∀ a b c, ge a b = true → ge b c = true → ge a c = true)
    (p : FoundPost) (l : List FoundPost)
    (h : l.Pairwise (fun a b => ge a b = true)) :
    (sortInsert ge p l).Pairwise (fun a b => ge a b = true) := by
  induction l with
  | nil => simp [sortInsert]
  | cons q rest ih =>
      rw [List.pairwise_cons] at h
      unfold sortInsert
      by_cases hpq : ge p q = true
      · rw [if_pos hpq]
        refine List.Pairwise.cons ?_ (List.Pairwise.cons h.1 h.2)
        intro x hx
        rcases List.mem_cons.mp hx with hx | hx
        · exact hx ▸ hpq
        · exact htrans _ _ _ hpq (h.1 x hx)
      · rw [if_neg hpq]
        refine List.Pairwise.cons ?_ (ih h.2)
        intro x hx
        rcases (mem_sortInsert ge p x rest).mp hx with rfl | hx
        · rcases htot x q with hh | hh
          · exact absurd hh hpq
          · exact hh
        · exact h.1 x hx

theorem sortDescBy_pairwise (ge : FoundPost → FoundPost → Bool)
    (htot : ∀ a b, ge a b = true ∨ ge b a = true)
    (htrans : ∀ a b c, ge a b = true → ge b c = true → ge a c = true)
    (l : List FoundPost) :
    (sortDescBy ge l).Pairwise (fun a b => ge a b = true) := by
  induction l with
  | nil => simp [sortDescBy]
  | cons p rest ih => exact sortInsert_pairwise ge htot htrans p (sortDescBy ge rest) ih

theorem mixedKinds_of_all_none (l : List FoundPost)
    (h : ∀ p ∈ l, p.time = none) : mixedKinds l = false := by
  unfold mixedKinds
  have hnone : (l.any fun p => !keyAware p.time) = false := by
    rw [List.any_eq_false]
    intro p hp
    rw [h p hp]
    simp [keyAware]
  rw [hnone, Bool.and_false]

theorem sortDescBy_timeGe_of_all_none (l : List FoundPost)
    (h : ∀ p ∈ l, p.time = none) : sortDescBy timeGe l = l := by
  induction l with
  | nil => rfl
  | cons p rest ih =>
      have hrest : sortDescBy timeGe rest = rest :=
        ih (fun q hq => h q (List.mem_cons_of_mem p hq))
      unfold sortDescBy
      rw [hrest]
      cases rest with
      | nil => rfl
      | cons q rest2 =>
          have hq : timeGe p q = true := by
            have hqt : q.time = none := h q (by simp)
            unfold timeGe
            rw [hqt]
            cases p.time <;> rfl
          simp [sortInsert, hq]

theorem sortPosts_of_all_none (scramble : List FoundPost → List FoundPost)
    (l : List FoundPost) (h : ∀ p ∈ l, p.time = none) :
    sortPosts scramble l = l := by
  unfold sortPosts
  rw [mixedKinds_of_all_none l h]
  simpa using sortDescBy_timeGe_of_all_none l h

/-- C9 amended: the returned address list has length at most max_items and
duplicates are NOT removed (see the counterexample). Its order depends on
the timestamp kinds: when the resolved sort keys do not mix naive and aware
datetimes, the try-branch sort completes and the list is newest first by
timestamp, with timestamp-less posts (keyed by the minimal aware datetime)
last, keeping insertion order when every timestamp is absent; when the kinds
are mixed the sort raises and the except branch orders the list by the first
number in each address, descending — newest-first by timestamp is then not
guaranteed. -/
theorem find_latest_sorted_truncated (scramble : List FoundPost → List FoundPost)
    (base : String) (now thresh : Int) (maxPosts : Nat)
    (srs : List (List IndexElem)) (fb : List String) :
    (find_latest_posts scramble base now thresh maxPosts srs fb).length ≤ maxPosts ∧
    (mixedKinds (foundPosts base now thresh maxPosts srs fb) = false →
      ((sortPosts scramble (foundPosts base now thresh maxPosts srs fb)).take
        maxPosts).Pairwise (fun a b => timeGe a b = true)) ∧
    (mixedKinds (foundPosts base now thresh maxPosts srs fb) = true →
      ((sortPosts scramble (foundPosts base now thresh maxPosts srs fb)).take
        maxPosts).Pairwise (fun a b => urlGe a b = true)) ∧
    ((∀ p ∈ foundPosts base now thresh maxPosts srs fb, p.time = none) →
      find_latest_posts scramble base now thresh maxPosts srs fb =
        ((foundPosts base now thresh maxPosts srs fb).take maxPosts).map FoundPost.url) := by
  refine ⟨?_, ?_, ?_, ?_⟩
  · unfold find_latest_posts
    rw [List.length_map]
    exact (List.length_take _ _).le.trans (min_le_left _ _)
  · intro hmix
    unfold sortPosts
    rw [hmix]
    simp only [Bool.false_eq_true, if_false]
    exact List.Pairwise.sublist (List.take_sublist _ _)
      (sortDescBy_pairwise timeGe timeGe_total timeGe_trans _)
  · intro hmix
    unfold sortPosts
    rw [hmix]
    simp only [if_true]
    exact List.Pairwise.sublist (List.take_sublist _ _)
      (sortDescBy_pairwise urlGe urlGe_total urlGe_trans _)
  · intro hnone
    unfold find_latest_posts
    rw [sortPosts_of_all_none scramble _ hnone]

/-- Witness for C9's amended statement: an undated plus aware-dated page is
unmixed and sorted by timestamp (dated first); a naive-dated plus undated
page is mixed, so the fallback orders by URL number; a fully undated page
keeps insertion order. -/
theorem find_latest_sorted_truncated_witness :
    (find_latest_posts (fun l => l) "B" 1000 48 2
        [[⟨some "a", none⟩, ⟨some "b", some ⟨true, 900⟩⟩]] []).length ≤ 2 ∧
    ((sortPosts (fun l => l) (foundPosts "B" 1000 48 2
        [[⟨some "a", none⟩, ⟨some "b", some ⟨true, 900⟩⟩]] [])).take 2).Pairwise
      (fun a b => timeGe a b = true) ∧
    ((sortPosts (fun l => l) (foundPosts "B" 1000 48 2
        [[⟨some "/t/1", some ⟨false, 900⟩⟩, ⟨some "/t/2", none⟩]] [])).take 2).Pairwise
      (fun a b => urlGe a b = true) ∧
    find_latest_posts (fun l => l) "B" 1000 48 2
        [[⟨some "a", none⟩, ⟨some "c", none⟩]] [] =
      ((foundPosts "B" 1000 48 2 [[⟨some "a", none⟩, ⟨some "c", none⟩]] []).take 2).map
        FoundPost.url :=
  ⟨(find_latest_sorted_truncated (fun l => l) "B" 1000 48 2
      [[⟨some "a", none⟩, ⟨some "b", some ⟨true, 900⟩⟩]] []).1,
   (find_latest_sorted_truncated (fun l => l) "B" 1000 48 2
      [[⟨some "a", none⟩, ⟨some "b", some ⟨true, 900⟩⟩]] []).2.1 (by decide),
   (find_latest_sorted_truncated (fun l => l) "B" 1000 48 2
      [[⟨some "/t/1", some ⟨false, 900⟩⟩, ⟨some "/t/2", none⟩]] []).2.2.1 (by decide),
   (find_latest_sorted_truncated (fun l => l) "B" 1000 48 2
      [[⟨some "a", none⟩, ⟨some "c", none⟩]] []).2.2.2 (by decide)⟩

/- ===== C6 helper lemmas ===== -/

theorem linkOfAnchor_url {a : Anchor} {lk : Link} (h : linkOfAnchor a = some lk) :
    a.href = some lk.url := by
  unfold linkOfAnchor at h
  cases ha : a.href with
  | none => rw [ha] at h; cases h
  | some v =>
      rw [ha] at h
      simp only at h
      by_cases hcond : (if strTrim a.text ≠ "" then strTrim a.text else strTrim a.title) = "" ∨ v = ""
      · rw [if_pos hcond] at h; cases h
      · rw [if_neg hcond] at h
        cases h
        rfl

theorem linkOfAnchor_none_of_href_none {a : Anchor} (h : a.href = none) :
    linkOfAnchor a = none := by
  unfold linkOfAnchor
  rw [h]

theorem dedup_hrefs_nodup (as : List Anchor) : ∀ seen : List String,
    ((dedupAnchors as seen).filterMap Anchor.href).Nodup ∧
    (∀ u ∈ (dedupAnchors as seen).filterMap Anchor.href, u ∉ seen) := by
  induction as with
  | nil => intro seen; simp [dedupAnchors]
  | cons a rest ih =>
      intro seen
      cases ha : a.href with
      | none => simpa [dedupAnchors, ha] using ih seen
      | some v =>
          by_cases hv : v = ""
          · simpa [dedupAnchors, ha, hv] using ih seen
          · by_cases hs : v ∈ seen
            · simpa [dedupAnchors, ha, hv, hs] using ih seen
            · have ihv := ih (v :: seen)
              have heq : dedupAnchors (a :: rest) seen = a :: dedupAnchors rest (v :: seen) := by
                simp [dedupAnchors, ha, hv, hs]
              rw [heq, List.filterMap_cons_some ha]
              constructor
              · exact List.nodup_cons.mpr
                  ⟨fun hmem => (ihv.2 v hmem) (List.mem_cons_self v seen), ihv.1⟩
              · intro u hu
                rcases List.mem_cons.mp hu with rfl | hu
                · exact hs
                · exact fun hus => (ihv.2 u hu) (List.mem_cons_of_mem v hus)

theorem links_urls_sublist (l : List Anchor) :
    List.Sublist ((l.filterMap linkOfAnchor).map Link.url) (l.filterMap Anchor.href) := by
  induction l with
  | nil => simp
  | cons a rest ih =>
      cases ha : a.href with
      | none =>
          rw [List.filterMap_cons_none (linkOfAnchor_none_of_href_none ha),
            List.filterMap_cons_none ha]
          exact ih
      | some v =>
          rw [List.filterMap_cons_some ha]
          cases hl : linkOfAnchor a with
          | none =>
              rw [List.filterMap_cons_none hl]
              exact List.Sublist.cons v ih
          | some lk =>
              have hurl : v = lk.url := by
                have := linkOfAnchor_url hl
                rw [ha] at this
                exact Option.some.inj this
              rw [List.filterMap_cons_some hl, List.map_cons, hurl]
              exact List.Sublist.cons₂ lk.url ih

theorem dedup_filter_links (as : List Anchor) : ∀ (seen : List String) (u : String),
    u ≠ "" →
    ((dedupAnchors as seen).filterMap linkOfAnchor).filter (fun lk => decide (lk.url = u)) =
      (if u ∈ seen then []
       else ((as.find? (fun a => decide (a.href = some u))).bind linkOfAnchor).toList) := by
  induction as with
  | nil =>
      intro seen u hu
      simp [dedupAnchors]
  | cons a rest ih =>
      intro seen u hu
      cases ha : a.href with
      | none =>
          have hfind : ¬ (fun a : Anchor => decide (a.href = some u)) a = true := by
            simp [ha]
          have hstep : List.find? (fun a : Anchor => decide (a.href = some u)) (a :: rest) =
              List.find? (fun a : Anchor => decide (a.href = some u)) rest :=
            List.find?_cons_of_neg rest hfind
          rw [hstep]
          have heq : dedupAnchors (a :: rest) seen = dedupAnchors rest seen := by
            simp [dedupAnchors, ha]
          rw [heq]
          exact ih seen u hu
      | some v =>
          by_cases hv : v = ""
          · have hfind : ¬ (fun a : Anchor => decide (a.href = some u)) a = true := by
              simp [ha, hv]
              exact fun hh => hu hh.symm
            have hstep : List.find? (fun a : Anchor => decide (a.href = some u)) (a :: rest) =
                List.find? (fun a : Anchor => decide (a.href = some u)) rest :=
              List.find?_cons_of_neg rest hfind
            rw [hstep]
            have heq : dedupAnchors (a :: rest) seen = dedupAnchors rest seen := by
              simp [dedupAnchors, ha, hv]
            rw [heq]
            exact ih seen u hu
          · by_cases hs : v ∈ seen
            · have heq : dedupAnchors (a :: rest) seen = dedupAnchors rest seen := by
                simp [dedupAnchors, ha, hv, hs]
              rw [heq, ih seen u hu]
              by_cases hus : u ∈ seen
              · simp [hus]
              · have hvu : ¬ (fun a : Anchor => decide (a.href = some u)) a = true := by
                  simp [ha]
                  intro hh
                  exact hus (hh ▸ hs)
                have hstep : List.find? (fun a : Anchor => decide (a.href = some u)) (a :: rest) =
                    List.find? (fun a : Anchor => decide (a.href = some u)) rest :=
                  List.find?_cons_of_neg rest hvu
                rw [if_neg hus, if_neg hus, hstep]
            · have heq : dedupAnchors (a :: rest) seen = a :: dedupAnchors rest (v :: seen) := by
                simp [dedupAnchors, ha, hv, hs]
              rw [heq]
              by_cases hvu : v = u
              · subst hvu
                have hfind : (fun a : Anchor => decide (a.href = some v)) a = true := by
                  simp [ha]
                have hstep : List.find? (fun a : Anchor => decide (a.href = some v)) (a :: rest) =
                    some a :=
                  List.find?_cons_of_pos rest hfind
                rw [if_neg hs, hstep]
                have htail :
                    ((dedupAnchors rest (v :: seen)).filterMap linkOfAnchor).filter
                      (fun lk => decide (lk.url = v)) = [] := by
                  rw [ih (v :: seen) v hu]
                  simp
                cases hl : linkOfAnchor a with
                | none =>
                    rw [List.filterMap_cons_none hl, htail]
                    simp [hl]
                | some lk =>
                    have hurl : lk.url = v := by
                      have := linkOfAnchor_url hl
                      rw [ha] at this
                      exact (Option.some.inj this).symm
                    rw [List.filterMap_cons_some hl,
                      List.filter_cons_of_pos (by simp [hurl]), htail]
                    simp [hl]
              · have hfind : ¬ (fun a : Anchor => decide (a.href = some u)) a = true := by
                  simp [ha]
                  exact fun hh => hvu hh
                have hstep : List.find? (fun a : Anchor => decide (a.href = some u)) (a :: rest) =
                    List.find? (fun a : Anchor => decide (a.href = some u)) rest :=
                  List.find?_cons_of_neg rest hfind
                rw [hstep]
                have hrest := ih (v :: seen) u hu
                have hfix :
                    (if u ∈ v :: seen then ([] : List Link)
                      else ((List.find? (fun a : Anchor => decide (a.href = some u)) rest).bind
                        linkOfAnchor).toList) =
                    (if u ∈ seen then ([] : List Link)
                      else ((List.find? (fun a : Anchor => decide (a.href = some u)) rest).bind
                        linkOfAnchor).toList) := by
                  by_cases hus : u ∈ seen
                  · rw [if_pos hus, if_pos (List.mem_cons_of_mem v hus)]
                  · have hnotin : u ∉ v :: seen := by
                      intro hmem
                      rcases List.mem_cons.mp hmem with rfl | hmem
                      · exact hvu rfl
                      · exact hus hmem
                    rw [if_neg hus, if_neg hnotin]
                cases hl : linkOfAnchor a with
                | none =>
                    rw [List.filterMap_cons_none hl, hrest, hfix]
                | some lk =>
                    have hurl : lk.url = v := by
                      have := linkOfAnchor_url hl
                      rw [ha] at this
                      exact (Option.some.inj this).symm
                    have hpneg : ¬ (fun lk : Link => decide (lk.url = u)) lk = true := by
                      simp [hurl]
                      exact fun hh => hvu hh
                    have hfstep : List.filter (fun lk : Link => decide (lk.url = u))
                        (lk :: List.filterMap linkOfAnchor (dedupAnchors rest (v :: seen))) =
                        List.filter (fun lk : Link => decide (lk.url = u))
                          (List.filterMap linkOfAnchor (dedupAnchors rest (v :: seen))) :=
                      List.filter_cons_of_neg hpneg
                    rw [List.filterMap_cons_some hl, hfstep, hrest, hfix]

/- ===== C6 ===== -/

/-- C6: the extractor's link list has at most one item per target address:
its urls are pairwise distinct, and the items carrying a given address u are
exactly what linkOfAnchor makes of the FIRST anchor with href u in the
collected order (rule order, then encounter order) — so a page with two
reference elements sharing a target address yields exactly one item for it
whenever that first anchor has a usable display name. -/
theorem parse_links_dedup_by_url (srs : List (List Anchor)) (u : String)
    (hu : u ≠ "") :
    ((parseLinks srs).map Link.url).Nodup ∧
    (parseLinks srs).filter (fun lk => decide (lk.url = u)) =
      (((collectAnchors srs).find? (fun a => decide (a.href = some u))).bind
        linkOfAnchor).toList := by
  constructor
  · exact List.Nodup.sublist (links_urls_sublist _) (dedup_hrefs_nodup (collectAnchors srs) []).1
  · have h := dedup_filter_links (collectAnchors srs) [] u hu
    simpa using h

/-- Witness for C6: a page whose winning rules match two anchors with the
same target address "x" yields exactly one item for it, built from the first
anchor. -/
theorem parse_links_dedup_by_url_witness :
    ((parseLinks [[⟨some "x", "A", ""⟩, ⟨some "x", "B", ""⟩]]).map Link.url).Nodup ∧
    (parseLinks [[⟨some "x", "A", ""⟩, ⟨some "x", "B", ""⟩]]).filter
        (fun lk => decide (lk.url = "x")) =
      (((collectAnchors [[⟨some "x", "A", ""⟩, ⟨some "x", "B", ""⟩]]).find?
          (fun a => decide (a.href = some "x"))).bind linkOfAnchor).toList :=
  parse_links_dedup_by_url [[⟨some "x", "A", ""⟩, ⟨some "x", "B", ""⟩]] "x" (by decide)

/- ===== C4 helper lemmas ===== -/

theorem was_recently_congr {db db0 : DBState} {u : String}
    (h : getRecord db u = getRecord db0 u) (hours now : Nat) :
    was_recently_processed db u hours now = was_recently_processed db0 u hours now := by
  unfold was_recently_processed
  rw [h]

theorem classify_unchanged_iff (db : DBState) (url h : String) :
    classify db url h = Status.unchanged ↔ get_post_hash db url = some h := by
  unfold classify is_url_processed get_post_hash
  cases hrec : getRecord db url with
  | none => simp
  | some rec =>
      by_cases hh : rec.content_hash = h
      · simp [hh]
      · simp [hh]

theorem processPost_cases (scrape : String → Option ScrapeResult)
    (ch : List Int) (s : Int → Bool) (db : DBState) (now : Nat) (url : String) :
    processPost scrape ch s db now url = ([], db) ∨
    ∃ r : ScrapeResult, scrape url = some r ∧ ¬ r.links = [] ∧
      processPost scrape ch s db now url =
        (ch.map (fun c => Event.dispatch c (s c)) ++ [Event.commit url],
         setRecord db url ⟨r.content_hash, r.links.length, now⟩) := by
  unfold processPost add_processed_post
  by_cases hrec : was_recently_processed db url 2 now = true
  · rw [if_pos hrec]
    exact Or.inl rfl
  · rw [if_neg hrec]
    cases hs : scrape url with
    | none => exact Or.inl rfl
    | some r =>
        dsimp only
        by_cases hl : r.links = []
        · rw [if_pos hl]
          exact Or.inl rfl
        · rw [if_neg hl]
          by_cases hc : classify db url r.content_hash = Status.unchanged
          · rw [if_pos hc]
            exact Or.inl rfl
          · rw [if_neg hc]
            exact Or.inr ⟨r, rfl, hl, rfl⟩

theorem staleFreeB_elim {scrape : String → Option ScrapeResult} {db : DBState}
    {now : Nat} {u : String} {r : ScrapeResult}
    (hsf : staleFreeB scrape db now u = true)
    (hrec : was_recently_processed db u 2 now = true)
    (hs : scrape u = some r) (hl : ¬ r.links = []) :
    ∃ rec : PageRecord, getRecord db u = some rec ∧
      rec.content_hash = r.content_hash := by
  unfold staleFreeB at hsf
  rw [hrec, hs] at hsf
  simp at hsf
  rcases hsf with hsf | hsf
  · exact absurd hsf hl
  · unfold get_post_hash at hsf
    obtain ⟨rec, hgr, hh⟩ := Option.map_eq_some'.mp hsf
    exact ⟨rec, hgr, hh⟩

theorem processPost_recordTracked (scrape : String → Option ScrapeResult)
    (ch : List Int) (s : Int → Bool) (db0 db : DBState) (now : Nat)
    (v u : String) (h : RecordTracked scrape db0 db u) :
    RecordTracked scrape db0 (processPost scrape ch s db now v).2 u := by
  rcases processPost_cases scrape ch s db now v with hc | ⟨r, hsv, hl, hc⟩
  · rw [hc]
    exact h
  · rw [hc]
    by_cases huv : u = v
    · subst huv
      exact Or.inr ⟨r, ⟨r.content_hash, r.links.length, now⟩, hsv,
        getRecord_setRecord_self db u _, rfl⟩
    · unfold RecordTracked
      rw [getRecord_setRecord_other db v u _ huv]
      exact h

theorem processPost_hashSettled_self (scrape : String → Option ScrapeResult)
    (ch : List Int) (s : Int → Bool) (db0 db : DBState) (now : Nat) (u : String)
    (hJ : RecordTracked scrape db0 db u)
    (hsf : staleFreeB scrape db0 now u = true) :
    HashSettled scrape (processPost scrape ch s db now u).2 u := by
  intro r hs
  by_cases hl : r.links = []
  · exact Or.inl hl
  right
  by_cases hrec : was_recently_processed db u 2 now = true
  · have hskip : processPost scrape ch s db now u = ([], db) := by
      unfold processPost
      rw [if_pos hrec]
    simp only [hskip]
    rcases hJ with heq | ⟨r2, rec, hs2, hgr, hh⟩
    · rw [was_recently_congr heq 2 now] at hrec
      obtain ⟨rec, hgr0, hh⟩ := staleFreeB_elim hsf hrec hs hl
      refine ⟨rec, ?_, hh⟩
      rw [heq]
      exact hgr0
    · have hr2 : r2 = r := Option.some.inj (hs2.symm.trans hs)
      exact ⟨rec, hgr, by rw [hh, hr2]⟩
  · by_cases hc : classify db u r.content_hash = Status.unchanged
    · have hskip : processPost scrape ch s db now u = ([], db) := by
        simp only [processPost, hs]
        rw [if_neg hrec, if_neg hl, if_pos hc]
      simp only [hskip]
      have hph := (classify_unchanged_iff db u r.content_hash).mp hc
      unfold get_post_hash at hph
      obtain ⟨rec, hgr, hh⟩ := Option.map_eq_some'.mp hph
      exact ⟨rec, hgr, hh⟩
    · have hcommit : processPost scrape ch s db now u =
          (ch.map (fun c => Event.dispatch c (s c)) ++ [Event.commit u],
           setRecord db u ⟨r.content_hash, r.links.length, now⟩) := by
        simp only [processPost, add_processed_post, hs]
        rw [if_neg hrec, if_neg hl, if_neg hc]
      simp only [hcommit]
      exact ⟨_, getRecord_setRecord_self db u _, rfl⟩

theorem processPost_hashSettled_preserved (scrape : String → Option ScrapeResult)
    (ch : List Int) (s : Int → Bool) (db : DBState) (now : Nat) (v u : String)
    (h : HashSettled scrape db u) :
    HashSettled scrape (processPost scrape ch s db now v).2 u := by
  intro r hs
  rcases processPost_cases scrape ch s db now v with hc | ⟨r2, hsv, hl2, hc⟩
  · simp only [hc]
    exact h r hs
  · simp only [hc]
    by_cases huv : u = v
    · subst huv
      have hr2 : r2 = r := Option.some.inj (hsv.symm.trans hs)
      right
      refine ⟨⟨r2.content_hash, r2.links.length, now⟩, getRecord_setRecord_self db u _, ?_⟩
      rw [hr2]
    · rcases h r hs with hl | ⟨rec, hgr, hh⟩
      · exact Or.inl hl
      · right
        refine ⟨rec, ?_, hh⟩
        rw [getRecord_setRecord_other db v u _ huv]
        exact hgr

theorem runCycle_hashSettled_preserved (scrape : String → Option ScrapeResult)
    (ch : List Int) (s : Int → Bool) (now : Nat) (u : String) :
    ∀ (urls : List String) (db : DBState), HashSettled scrape db u →
      HashSettled scrape (runCycle scrape ch s now db urls).2 u := by
  intro urls
  induction urls with
  | nil => intro db h; exact h
  | cons v rest ih =>
      intro db h
      exact ih _ (processPost_hashSettled_preserved scrape ch s db now v u h)

theorem runCycle_establishes_settled (scrape : String → Option ScrapeResult)
    (ch : List Int) (s : Int → Bool) (now : Nat) (db0 : DBState) :
    ∀ (urls : List String) (db : DBState),
      (∀ u, RecordTracked scrape db0 db u) →
      (∀ u ∈ urls, staleFreeB scrape db0 now u = true) →
      ∀ u ∈ urls, HashSettled scrape (runCycle scrape ch s now db urls).2 u := by
  intro urls
  induction urls with
  | nil =>
      intro db hJ hsf u hu
      exact absurd hu (List.not_mem_nil u)
  | cons v rest ih =>
      intro db hJ hsf u hu
      rcases List.mem_cons.mp hu with rfl | hu
      · have h1 : HashSettled scrape (processPost scrape ch s db now u).2 u :=
          processPost_hashSettled_self scrape ch s db0 db now u (hJ u)
            (hsf u (List.mem_cons_self _ _))
        exact runCycle_hashSettled_preserved scrape ch s now u rest _ h1
      · exact ih _ (fun w => processPost_recordTracked scrape ch s db0 db now v w (hJ w))
          (fun w hw => hsf w (List.mem_cons_of_mem v hw)) u hu

theorem runCycle_of_settled (scrape : String → Option ScrapeResult)
    (ch : List Int) (s : Int → Bool) (now2 : Nat) :
    ∀ (urls : List String) (db : DBState),
      (∀ u ∈ urls, HashSettled scrape db u) →
      runCycle scrape ch s now2 db urls = ([], db) := by
  intro urls
  induction urls with
  | nil => intro db h; rfl
  | cons v rest ih =>
      intro db h
      have hv : processPost scrape ch s db now2 v = ([], db) := by
        rcases processPost_cases scrape ch s db now2 v with hc | ⟨r, hsv, hl, hc⟩
        · exact hc
        · rcases h v (List.mem_cons_self _ _) r hsv with hle | ⟨rec, hgr, hh⟩
          · exact absurd hle hl
          · exfalso
            have hcu : classify db v r.content_hash = Status.unchanged :=
              (classify_unchanged_iff db v r.content_hash).mpr
                (by simp [get_post_hash, hgr, hh])
            by_cases hrec : was_recently_processed db v 2 now2 = true
            · have hsk : processPost scrape ch s db now2 v = ([], db) := by
                unfold processPost
                rw [if_pos hrec]
              rw [hsk] at hc
              have := congrArg Prod.fst hc
              simp at this
            · have hsk : processPost scrape ch s db now2 v = ([], db) := by
                simp only [processPost, hsv]
                rw [if_neg hrec, if_neg hl, if_pos hcu]
              rw [hsk] at hc
              have := congrArg Prod.fst hc
              simp at this
      simp only [runCycle, hv]
      rw [ih db (fun u hu => h u (List.mem_cons_of_mem v hu))]
      rfl

/- ===== C4 ===== -/

/-- C4 counterexample: a record written within the recency window but stale
(stored fingerprint H0, current content hashes to H1) is recency-skipped by
the first run (zero deliveries, store untouched), and the second run of the
same cycle against the unchanged source then classifies it updated and
delivers — the second run's deliveries are not zero. -/
theorem second_run_delivers_cx :
    (runCycle (fun u => if u = "u" then some ⟨[⟨"t", "x"⟩], "H1"⟩ else none) [1]
        (fun _ => true) 100 [("u", ⟨"H0", 1, 100⟩)] ["u"]).1 = [] ∧
    (runCycle (fun u => if u = "u" then some ⟨[⟨"t", "x"⟩], "H1"⟩ else none) [1]
        (fun _ => true) 7301
        (runCycle (fun u => if u = "u" then some ⟨[⟨"t", "x"⟩], "H1"⟩ else none) [1]
          (fun _ => true) 100 [("u", ⟨"H0", 1, 100⟩)] ["u"]).2 ["u"]).1 =
      [Event.dispatch 1 true, Event.commit "u"] ∧
    (runCycle (fun u => if u = "u" then some ⟨[⟨"t", "x"⟩], "H1"⟩ else none) [1]
        (fun _ => true) 7301
        (runCycle (fun u => if u = "u" then some ⟨[⟨"t", "x"⟩], "H1"⟩ else none) [1]
          (fun _ => true) 100 [("u", ⟨"H0", 1, 100⟩)] ["u"]).2 ["u"]).1 ≠ [] := by
  refine ⟨by decide, by decide, by decide⟩

/-- C4 amended: provided every candidate address that the first run would
skip as recently processed already stores the fingerprint of the source's
current content (or that content has no links), running the poll cycle twice
against an unchanged source produces zero deliveries (indeed zero events) on
the second run and leaves every Page Record exactly as the first run left
it. Without that proviso the claim fails, see the counterexample. -/
theorem poll_cycle_idempotent (scrape : String → Option ScrapeResult)
    (channels : List Int) (sendOk : Int → Bool) (db0 : DBState)
    (now1 now2 : Nat) (urls : List String)
    (hsf : ∀ u ∈ urls, staleFreeB scrape db0 now1 u = true) :
    runCycle scrape channels sendOk now2
        (runCycle scrape channels sendOk now1 db0 urls).2 urls =
      ([], (runCycle scrape channels sendOk now1 db0 urls).2) := by
  apply runCycle_of_settled
  intro u hu
  exact runCycle_establishes_settled scrape channels sendOk now1 db0 urls db0
    (fun w => Or.inl rfl) hsf u hu

/-- Witness for C4's amended statement: one fresh address, committed by the
first run, is skipped with zero events by a much later second run. -/
theorem poll_cycle_idempotent_witness :
    runCycle (fun u => if u = "a" then some ⟨[⟨"t", "x"⟩], "H"⟩ else none) [1]
        (fun _ => true) 99999
        (runCycle (fun u => if u = "a" then some ⟨[⟨"t", "x"⟩], "H"⟩ else none) [1]
          (fun _ => true) 10 [] ["a"]).2 ["a"] =
      ([], (runCycle (fun u => if u = "a" then some ⟨[⟨"t", "x"⟩], "H"⟩ else none) [1]
          (fun _ => true) 10 [] ["a"]).2) :=
  poll_cycle_idempotent (fun u => if u = "a" then some ⟨[⟨"t", "x"⟩], "H"⟩ else none)
    [1] (fun _ => true) [] 10 99999 ["a"] (by decide)

end TorrentBot
